import Mathlib

/-!
Verification development for the seasonal-catalog reconciliation engine
(`src/library/discover.cpp`, class `library::SeasonDatabase`).

The C++ code is shallowly embedded: each member function becomes a pure Lean
function over an explicit state.  Collaborators that live outside the given
source slice (the anime library database, date utilities, the service
registry) are modelled from the specification, as marked in the doc comments.
XML parsing is mechanical and is modelled by handing the functions an
`Option SeasonDoc`: `none` stands for a document that fails to parse.
-/

/-- Calendar date with year/month/day components; a zero component means the
corresponding part is unknown.  Modelled from the spec: dates are compared
chronologically, i.e. lexicographically on (year, month, day). -/
structure Date where
  year : Nat
  month : Nat
  day : Nat
deriving DecidableEq, Repr

/-- Chronological (lexicographic) comparison of dates, the embedding of the
C++ `Date::operator<=`. -/
def dateLe (a b : Date) : Bool :=
  decide (a.year < b.year) ||
    (a.year == b.year &&
      (decide (a.month < b.month) ||
        (a.month == b.month && decide (a.day ≤ b.day))))

/-- Modelled from the spec: `anime::IsValidDate` reports whether a start date
is valid/known; a date with an unknown (zero) year is invalid. -/
def IsValidDate (d : Date) : Bool :=
  d.year != 0

/-- One library record (`anime::Item`).  `ids` is the service-id → external-id
mapping, kept sorted by service id (the C++ side is a `std::map`).  An empty
`synopsis` models an unset synopsis; `nsfw` models the mature-content flag
consulted by `IsNsfw` (modelled from the spec: content-rating exclusion). -/
structure Item where
  aid : Nat
  ids : List (Nat × String)
  lastModified : Int
  source : Nat
  title : String
  type : Int
  imageUrl : String
  trailerUrl : String
  producers : String
  dateStart : Date
  synopsis : String
  nsfw : Bool
deriving DecidableEq, Repr

/-- Lookup in an association list keyed by service id (`std::map::find`). -/
def mapGet (m : List (Nat × String)) (k : Nat) : Option String :=
  match m with
  | [] => none
  | (k2, v) :: rest => if k2 = k then some v else mapGet rest k

/-- Ordered insertion with overwrite, the embedding of
`std::map::operator[]` followed by assignment: the map stays sorted by key
and a later entry for an existing key replaces the earlier one. -/
def insertSorted (m : List (Nat × String)) (k : Nat) (v : String) : List (Nat × String) :=
  match m with
  | [] => [(k, v)]
  | (k2, v2) :: rest =>
    if k < k2 then (k, v) :: (k2, v2) :: rest
    else if k = k2 then (k, v) :: rest
    else (k2, v2) :: insertSorted rest k v

/-- Builds the per-entry identifier map from the identifier tags in document
order, the embedding of the `foreach_xmlnode_(id_node, node, L"id")` loop
filling `std::map<enum_t, std::wstring> id_map`. -/
def buildIdMap (tags : List (Nat × String)) : List (Nat × String) :=
  tags.foldl (fun m t => insertSorted m t.1 t.2) []

/-- Does this record carry external id `eid` for service `sid`? -/
def hasId (it : Item) (sid : Nat) (eid : String) : Bool :=
  mapGet it.ids sid == some eid

/-- Modelled from the spec: the library store's
`FindByExternalId(id, serviceId)` (`AnimeDatabase.FindItem(id, service, false)`),
returning the first record in library order carrying the id, together with
its position. -/
def findPair (sid : Nat) (eid : String) : List Item → Option (Nat × Item)
  | [] => none
  | it :: rest =>
    if hasId it sid eid then some (0, it)
    else (findPair sid eid rest).map (fun p => (p.1 + 1, p.2))

/-- The identity-resolution loop of `SeasonDatabase::LoadString`: iterate the
identifier map's pairs in order and return the first successful library
lookup. -/
def resolvePair (db : List Item) : List (Nat × String) → Option (Nat × Item)
  | [] => none
  | (s, e) :: rest =>
    match findPair s e db with
    | some r => some r
    | none => resolvePair db rest

/-- Modelled from the spec: the library store's `FindById`
(`AnimeDatabase.FindItem(anime_id)`). -/
def findById (db : List Item) (aid : Nat) : Option Item :=
  db.find? (fun it => it.aid == aid)

/-- Modelled from the spec: fresh identifier minted by the library when a new
record is inserted. -/
def freshId (db : List Item) : Nat :=
  db.foldr (fun it a => max it.aid a) 0 + 1

/-- Overwriting an out-of-date record with an accepted catalog entry:
the fields carried by the catalog entry (title, type, image, trailer,
producers, identifiers, timestamp, source) are replaced, the record identifier
and the fields the catalog does not carry are kept. -/
def mergeItem (old newIt : Item) : Item :=
  { old with
    ids := newIt.ids
    lastModified := newIt.lastModified
    source := newIt.source
    title := newIt.title
    type := newIt.type
    imageUrl := newIt.imageUrl
    trailerUrl := newIt.trailerUrl
    producers := newIt.producers }

/-- Modelled from the spec: the library store's insert-or-update
(`AnimeDatabase.UpdateItem`), keyed by external-identifier lookup: the first
existing record matching one of the incoming record's external ids is
overwritten in place; otherwise a fresh identifier is minted and the record
appended in library order. -/
def updateItem (db : List Item) (newIt : Item) : Nat × List Item :=
  match resolvePair db newIt.ids with
  | some (j, old) => (old.aid, db.set j (mergeItem old newIt))
  | none => (freshId db, db ++ [{ newIt with aid := freshId db }])

/-- One catalog entry of a season document (`<anime>` node), with its
identifier tags in document order, each tag already resolved to a service id
(`ServiceManager.GetServiceIdByName`). -/
structure SeasonEntry where
  idTags : List (Nat × String)
  title : String
  type : Int
  imageUrl : String
  trailerUrl : String
  producers : String
deriving DecidableEq, Repr

/-- A parsed season document: header name, document-wide modified timestamp,
entries in document order. -/
structure SeasonDoc where
  name : String
  modified : Int
  entries : List SeasonEntry
deriving DecidableEq, Repr

/-- The state touched by `SeasonDatabase`: the external library database in
library order, the membership list `items`, the current season name, the
remote location, and a counter of `AnimeDatabase.SaveDatabase()` calls
standing for the persist hook. -/
structure SeasonState where
  db : List Item
  items : List Nat
  currentSeason : String
  remoteLocation : String
  saveCount : Nat
deriving DecidableEq, Repr

/-- The fresh `anime::Item` built from a catalog entry in the update branch of
`LoadString`: source and all known service identifiers set, last-modified set
to the document timestamp, title/type/image/trailer/producers copied. -/
def entryItem (active : Nat) (m : Int) (e : SeasonEntry) (idMap : List (Nat × String)) : Item :=
  { aid := 0
    ids := idMap
    lastModified := m
    source := active
    title := e.title
    type := e.type
    imageUrl := e.imageUrl
    trailerUrl := e.trailerUrl
    producers := e.producers
    dateStart := ⟨0, 0, 0⟩
    synopsis := ""
    nsfw := false }

/-- The else-branch of per-entry processing in `LoadString`: reject the entry
when the identifier for the currently active service is absent or empty,
otherwise build the item and commit it via the library's insert-or-update. -/
def processElse (active : Nat) (m : Int) (db : List Item) (items : List Nat)
    (e : SeasonEntry) (idMap : List (Nat × String)) : List Item × List Nat :=
  if (mapGet idMap active).getD "" = "" then
    (db, items)
  else
    let p := updateItem db (entryItem active m e idMap)
    (p.2, items ++ [p.1])

/-- Processing of one `<anime>` node in `SeasonDatabase::LoadString`: build
the identifier map, resolve identity (first successful lookup), and either
reuse the matched record (when its last-modified timestamp is not older than
the document's) or fall through to the update branch. -/
def processEntry (active : Nat) (m : Int) (db : List Item) (items : List Nat)
    (e : SeasonEntry) : List Item × List Nat :=
  let idMap := buildIdMap e.idTags
  match resolvePair db idMap with
  | some (_, it) =>
    if m ≤ it.lastModified then (db, items ++ [it.aid])
    else processElse active m db items e idMap
  | none => processElse active m db items e idMap

/-- The entry loop of `LoadString` over the document's `<anime>` nodes. -/
def procAll (active : Nat) (m : Int) : List SeasonEntry → List Item → List Nat → List Item × List Nat
  | [], db, items => (db, items)
  | e :: es, db, items =>
    let p := processEntry active m db items e
    procAll active m es p.1 p.2

/-- `SeasonDatabase::LoadString`.  `parsed = none` models input on which
`xml_document::load_string` fails; `active` is the ambient
`taiga::GetCurrentServiceId()`. -/
def LoadString (parsed : Option SeasonDoc) (active : Nat) (s : SeasonState) : Bool × SeasonState :=
  match parsed with
  | none => (false, s)
  | some doc =>
    let p := procAll active doc.modified doc.entries s.db []
    let s2 : SeasonState :=
      { s with currentSeason := doc.name, db := p.1, items := p.2 }
    if p.2.isEmpty then (true, s2)
    else (true, { s2 with saveCount := s2.saveCount + 1 })

/-- Externally observable side effects of `SeasonDatabase::LoadFile`: the
transfer requests handed to `ConnectionManager.MakeRequest` and whether
`ui::DisplayErrorMessage` was shown. -/
structure LoadEffects where
  requests : List String
  errorShown : Bool
deriving DecidableEq, Repr

/-- `SeasonDatabase::LoadFile`.  `content = none` models `ReadFromFile`
failing (missing local document); `content = some none` models a document
that reads but fails to parse; `content = some (some doc)` a parseable one. -/
def LoadFile (content : Option (Option SeasonDoc)) (filename : String) (active : Nat)
    (s : SeasonState) : Bool × SeasonState × LoadEffects :=
  match content with
  | none =>
    (false, s,
      ⟨if s.remoteLocation == "" then [] else [s.remoteLocation ++ filename], false⟩)
  | some parsed =>
    let p := LoadString parsed active s
    if p.1 then (true, p.2, ⟨[], false⟩)
    else (false, p.2, ⟨[], true⟩)

/-- The date-interval test of `SeasonDatabase::Review`
(`is_within_date_interval`): requires a known year and month, then membership
between the interval bounds, both bounds inclusive as written in the source. -/
def isWithinInterval (ds de : Date) (it : Item) : Bool :=
  it.dateStart.year != 0 && it.dateStart.month != 0 &&
    dateLe ds it.dateStart && dateLe it.dateStart de

/-- The content-policy test of `Review` (`is_nsfw`). -/
def isNsfwOn (hide : Bool) (it : Item) : Bool :=
  hide && it.nsfw

/-- The pruning pass of `Review` ("check for invalid items"): the in-place
erase-with-index-rollback loop, which keeps an id unless its record exists and
is excluded by content policy or has a valid start date outside the
interval. -/
def reviewPrune (db : List Item) (hide : Bool) (ds de : Date) : List Nat → List Nat
  | [] => []
  | aid :: rest =>
    match findById db aid with
    | none => aid :: reviewPrune db hide ds de rest
    | some it =>
      if isNsfwOn hide it || (IsValidDate it.dateStart && !isWithinInterval ds de it) then
        reviewPrune db hide ds de rest
      else
        aid :: reviewPrune db hide ds de rest

/-- The discovery pass of `Review` ("check for missing items"): iterate the
library in order and append every record id that is absent from the list and
passes both the content-policy and the date-interval checks. -/
def reviewDiscover (hide : Bool) (ds de : Date) : List Item → List Nat → List Nat
  | [], acc => acc
  | it :: rest, acc =>
    let acc2 :=
      if acc.contains it.aid then acc
      else if isNsfwOn hide it || !isWithinInterval ds de it then acc
      else acc ++ [it.aid]
    reviewDiscover hide ds de rest acc2

/-- `SeasonDatabase::Review`.  The date interval `[ds, de]` is modelled from
the spec: `current_season.GetInterval` derives the season's date interval,
supplied here as an input. -/
def Review (hide : Bool) (ds de : Date) (s : SeasonState) : SeasonState :=
  { s with items := reviewDiscover hide ds de s.db (reviewPrune s.db hide ds de s.items) }

/-- The counting loop of `SeasonDatabase::IsRefreshRequired`, with the
running count threaded through and the early exit once it exceeds 20. -/
def irrGo (db : List Item) : Nat → List Nat → Bool
  | _, [] => false
  | count, aid :: rest =>
    let c2 :=
      match findById db aid with
      | some it => if !IsValidDate it.dateStart || it.synopsis == "" then count + 1 else count
      | none => count
    if 20 < c2 then true else irrGo db c2 rest

/-- `SeasonDatabase::IsRefreshRequired`. -/
def IsRefreshRequired (db : List Item) (items : List Nat) : Bool :=
  irrGo db 0 items

/-- Exhaustive count of membership-list records with an invalid start date or
an unset synopsis (the quantity `IsRefreshRequired` compares against its
threshold). -/
def countQual (db : List Item) : List Nat → Nat
  | [] => 0
  | aid :: rest =>
    match findById db aid with
    | some it =>
      if !IsValidDate it.dateStart || it.synopsis == "" then countQual db rest + 1
      else countQual db rest
    | none => countQual db rest

/-- The spec's Identity Resolver, written from its words: iterate the
(service-id, external-id) pairs in the order given — for the spec, the
document order of the identifier tags — and return the first pair for which
the library lookup succeeds. -/
def resolveDocOrder (db : List Item) : List (Nat × String) → Option (Nat × Item)
  | [] => none
  | (s, e) :: rest =>
    match findPair s e db with
    | some r => some r
    | none => resolveDocOrder db rest

/-! Concrete inputs used by the counterexamples and witnesses below. -/

/-- A base library record used to build concrete examples. -/
def exBase : Item :=
  { aid := 1
    ids := [(2, "b")]
    lastModified := 20
    source := 2
    title := "R"
    type := 1
    imageUrl := ""
    trailerUrl := ""
    producers := ""
    dateStart := ⟨0, 0, 0⟩
    synopsis := "X"
    nsfw := false }

/-- Record carrying service 2's id "a". -/
def ex1X : Item := { exBase with aid := 5, ids := [(2, "a")] }

/-- Record carrying service 1's id "b". -/
def ex1Y : Item := { exBase with aid := 6, ids := [(1, "b")] }

/-- Library with two records matched by different services. -/
def ex1db : List Item := [ex1X, ex1Y]

/-- Identifier tags in document order: service 2 listed first. -/
def ex1tags : List (Nat × String) := [(2, "a"), (1, "b")]

/-- A record for service 1's id "a", up to date at timestamp 20. -/
def ex2R : Item := { exBase with aid := 9, ids := [(1, "a")] }

/-- An entry whose only identifier is service 1's "a". -/
def ex2e : SeasonEntry := ⟨[(1, "a")], "E", 1, "", "", ""⟩

/-- A stale record (timestamp 5) for service 1's id "a". -/
def ex3R : Item := { exBase with aid := 9, ids := [(1, "a")], lastModified := 5 }

/-- A record with an unknown start date and no mature flag. -/
def ex4it : Item := { exBase with aid := 5 }

/-- A state whose membership list already contains a duplicate. -/
def ex4s : SeasonState := ⟨[ex4it], [5, 5], "", "", 0⟩

/-- A state with a duplicate-free membership list. -/
def ex4sW : SeasonState := ⟨[ex4it], [5], "", "", 0⟩

/-- A record with an unknown start date, used for the date-check exclusions. -/
def ex5it : Item := { exBase with aid := 3 }

/-- State with record 3 in the membership list. -/
def ex5sIn : SeasonState := ⟨[ex5it], [3], "", "", 0⟩

/-- State with record 3 absent from the membership list. -/
def ex5sOut : SeasonState := ⟨[ex5it], [], "", "", 0⟩

/-- A record whose valid start date sits exactly on the interval's end bound. -/
def ex6it : Item := { exBase with aid := 7, dateStart := ⟨2018, 3, 31⟩ }

/-- State with record 7 in the membership list. -/
def ex6sIn : SeasonState := ⟨[ex6it], [7], "", "", 0⟩

/-- State with record 7 absent from the membership list. -/
def ex6sOut : SeasonState := ⟨[ex6it], [], "", "", 0⟩

/-- A state with a nonempty remote location, as set by the constructor. -/
def ex7s : SeasonState :=
  ⟨[], [], "", "https://raw.githubusercontent.com/erengy/anime-seasons/master/data/", 0⟩

/-- First catalog entry of the idempotence counterexample: identifiers for
services 1 and 2. -/
def ex8e1 : SeasonEntry := ⟨[(1, "a"), (2, "b")], "A1", 1, "", "", ""⟩

/-- Second catalog entry of the idempotence counterexample: identifier for
service 1 only. -/
def ex8e2 : SeasonEntry := ⟨[(1, "a")], "A2", 1, "", "", ""⟩

/-- The season document of the idempotence counterexample, modified = 10. -/
def ex8doc : SeasonDoc := ⟨"winter", 10, [ex8e1, ex8e2]⟩

/-- Initial state of the idempotence counterexample: one record, matched via
service 2, already newer than the document. -/
def ex8s0 : SeasonState := ⟨[exBase], [], "", "", 0⟩

/-- State after the first load of `ex8doc`. -/
def ex8s1 : SeasonState := (LoadString (some ex8doc) 1 ex8s0).2

/-- State after the second load of `ex8doc`. -/
def ex8s2 : SeasonState := (LoadString (some ex8doc) 1 ex8s1).2

/-- A record qualifying for the refresh count (unknown date, empty synopsis). -/
def ex9it : Item := { exBase with aid := 4, synopsis := "" }

/-- Library for the refresh-heuristic witness. -/
def ex9db : List Item := [ex9it]

/-- A membership list with 21 qualifying references. -/
def ex9items : List Nat := List.replicate 21 4

/-- Relation between a library database and any database obtained from it by
further `LoadString` processing at document timestamp `m`: the library only
grows, a record is only ever replaced in place or appended with last-modified
stamp `m`, and a record whose timestamp is already at least `m` is never
touched. -/
def Evolves (m : Int) (a b : List Item) : Prop :=
  a.length ≤ b.length ∧
  (∀ (j : Nat) (it : Item), a[j]? = some it →
    ∃ it2 : Item, b[j]? = some it2 ∧ (it2 = it ∨ it2.lastModified = m) ∧
      (m ≤ it.lastModified → it2 = it)) ∧
  (∀ (j : Nat) (it2 : Item), b[j]? = some it2 → a.length ≤ j → it2.lastModified = m)

/-! ## Theorems -/

/-- Claim C10: if `LoadString` is given input that fails to parse, it returns
false and leaves all state untouched — membership list, current season name,
every library record — and the persist hook is not invoked. -/
theorem claim10_parse_failure (active : Nat) (s : SeasonState) :
    LoadString none active s = (false, s) :=
  rfl

/-- Claim C2: when the resolver matches an existing record whose last-modified
timestamp is at least the document timestamp, reconciliation returns that
record's identifier and leaves the whole library — in particular every field
of the matched record — unchanged. -/
theorem claim2_reuse (active : Nat) (m : Int) (db : List Item) (items : List Nat)
    (e : SeasonEntry) (j : Nat) (it : Item)
    (hres : resolvePair db (buildIdMap e.idTags) = some (j, it))
    (hfresh : m ≤ it.lastModified) :
    processEntry active m db items e = (db, items ++ [it.aid]) := by
  simp [processEntry, hres, hfresh]

/-- Witness for claim C2 at a concrete input: record 9 is up to date
(timestamp 20 against document timestamp 10), so it is reused and
untouched. -/
theorem claim2_witness :
    processEntry 2 10 [ex2R] [] ex2e = ([ex2R], [9]) :=
  claim2_reuse 2 10 [ex2R] [] ex2e 0 ex2R rfl (by decide)

/-- Claim C3 counterexample: this entry has no identifier for the active
service 2 (`mapGet … = none`), yet processing it appends record 9 to the
membership list, because the entry is matched through service 1 to a record
that is newer than the document.  The claim "such an entry can never enter
MembershipList" is false on the code. -/
theorem claim3_cex :
    mapGet (buildIdMap ex2e.idTags) 2 = none ∧
    processEntry 2 10 [ex2R] [] ex2e = ([ex2R], [9]) :=
  ⟨rfl, rfl⟩

/-- Claim C3 (amended): an entry with no (or an empty) external id for the
active service creates no record, updates no record and appends nothing —
provided it is not matched to an existing record at least as new as the
document (no identifier matches, or the matched record is older). -/
theorem claim3_amended (active : Nat) (m : Int) (db : List Item) (items : List Nat)
    (e : SeasonEntry)
    (hid : (mapGet (buildIdMap e.idTags) active).getD "" = "")
    (hstale : ∀ (j : Nat) (it : Item),
      resolvePair db (buildIdMap e.idTags) = some (j, it) → it.lastModified < m) :
    processEntry active m db items e = (db, items) := by
  cases h : resolvePair db (buildIdMap e.idTags) with
  | none => simp [processEntry, processElse, h, hid]
  | some r =>
    obtain ⟨j, it⟩ := r
    have hlt := hstale j it h
    simp [processEntry, processElse, h, hid, not_le.mpr hlt]

/-- Witness for claim C3 (amended): the only match is stale (timestamp 5
against document timestamp 10) and the active service 2 has no id, so the
entry is skipped entirely. -/
theorem claim3_witness :
    processEntry 2 10 [ex3R] [] ex2e = ([ex3R], []) :=
  claim3_amended 2 10 [ex3R] [] ex2e rfl (by
    intro j it h
    have h2 : (some ((0 : Nat), ex3R) : Option (Nat × Item)) = some (j, it) := h
    injection h2 with h3
    injection h3 with h4 h5
    subst h5
    decide)

/-- Claim C7: with the local season document missing, `LoadFile` returns
false and enqueues exactly one transfer whose URL is the remote location
concatenated with the file name; with the document present but unparseable,
it returns false, shows the error dialog, and enqueues nothing. -/
theorem claim7_loadfile (filename : String) (active : Nat) (s : SeasonState)
    (h : s.remoteLocation ≠ "") :
    LoadFile none filename active s
      = (false, s, ⟨[s.remoteLocation ++ filename], false⟩) ∧
    LoadFile (some none) filename active s = (false, s, ⟨[], true⟩) := by
  refine ⟨?_, rfl⟩
  simp [LoadFile, beq_eq_false_iff_ne.mpr h]

/-- Witness for claim C7 at the constructor's remote location. -/
theorem claim7_witness :
    LoadFile none "2018_spring.xml" 1 ex7s
      = (false, ex7s,
          ⟨[ex7s.remoteLocation ++ "2018_spring.xml"], false⟩) ∧
    LoadFile (some none) "2018_spring.xml" 1 ex7s = (false, ex7s, ⟨[], true⟩) :=
  claim7_loadfile "2018_spring.xml" 1 ex7s (by decide)

/-- The code's resolution loop and the spec's first-match iteration agree on
any given pair list: both return the first successful lookup. -/
theorem resolve_eq_docOrder (db : List Item) (L : List (Nat × String)) :
    resolvePair db L = resolveDocOrder db L := by
  induction L with
  | nil => rfl
  | cons p rest ih =>
    obtain ⟨s, e⟩ := p
    cases h : findPair s e db <;> simp [resolvePair, resolveDocOrder, h, ih]

/-- A key occurring in `insertSorted m k v` occurs in `m` or equals `k`. -/
theorem mem_keys_insertSorted (m : List (Nat × String)) (k : Nat) (v : String)
    (x : Nat) (hx : x ∈ (insertSorted m k v).map Prod.fst) :
    x ∈ m.map Prod.fst ∨ x = k := by
  induction m with
  | nil => simpa [insertSorted] using hx
  | cons p rest ih =>
    obtain ⟨k2, v2⟩ := p
    by_cases h1 : k < k2
    · simp only [insertSorted, if_pos h1] at hx
      simp only [List.map_cons, List.mem_cons] at hx ⊢
      tauto
    · by_cases h2 : k = k2
      · simp only [insertSorted, if_neg h1, if_pos h2] at hx
        simp only [List.map_cons, List.mem_cons] at hx ⊢
        tauto
      · simp only [insertSorted, if_neg h1, if_neg h2] at hx
        simp only [List.map_cons, List.mem_cons] at hx ⊢
        rcases hx with hx | hx
        · tauto
        · rcases ih hx with h | h <;> tauto

/-- `insertSorted` preserves strict sortedness of the keys. -/
theorem pairwise_keys_insertSorted (m : List (Nat × String)) (k : Nat) (v : String)
    (h : (m.map Prod.fst).Pairwise (· < ·)) :
    ((insertSorted m k v).map Prod.fst).Pairwise (· < ·) := by
  induction m with
  | nil => simp [insertSorted]
  | cons p rest ih =>
    obtain ⟨k2, v2⟩ := p
    simp only [List.map_cons, List.pairwise_cons] at h
    by_cases h1 : k < k2
    · simp only [insertSorted, if_pos h1, List.map_cons, List.pairwise_cons]
      refine ⟨?_, h.1, h.2⟩
      intro b hb
      simp only [List.mem_cons] at hb
      rcases hb with rfl | hb
      · exact h1
      · exact lt_trans h1 (h.1 b hb)
    · by_cases h2 : k = k2
      · subst h2
        simp [insertSorted, if_neg h1, List.pairwise_cons]
        refine ⟨?_, h.2⟩
        intro a x hx
        exact h.1 a (List.mem_map.mpr ⟨(a, x), hx, rfl⟩)
      · have hk2 : k2 < k := by omega
        simp only [insertSorted, if_neg h1, if_neg h2, List.map_cons,
          List.pairwise_cons]
        refine ⟨?_, ih h.2⟩
        intro b hb
        rcases mem_keys_insertSorted rest k v b hb with hb2 | rfl
        · exact h.1 b hb2
        · exact hk2

/-- The identifier map built by `LoadString` has its keys (the service ids)
in strictly increasing order, whatever the document order of the tags. -/
theorem buildIdMap_keys_sorted (tags : List (Nat × String)) :
    ((buildIdMap tags).map Prod.fst).Pairwise (· < ·) := by
  suffices h : ∀ (ts : List (Nat × String)) (m : List (Nat × String)),
      (m.map Prod.fst).Pairwise (· < ·) →
      (((ts.foldl (fun m t => insertSorted m t.1 t.2) m)).map Prod.fst).Pairwise (· < ·) by
    exact h tags [] (by simp)
  intro ts
  induction ts with
  | nil => intro m hm; simpa using hm
  | cons t rest ih =>
    intro m hm
    exact ih _ (pairwise_keys_insertSorted m t.1 t.2 hm)

/-- Claim C1 counterexample: identifier tags listed in document order as
service 2 then service 1; service 2's id matches record 5, service 1's id
matches record 6.  Document-order first-match (the claim) returns record 5,
but the code returns record 6: the `std::map` iterates by ascending service
id, not document order. -/
theorem claim1_cex :
    resolveDocOrder ex1db ex1tags = some (0, ex1X) ∧
    resolvePair ex1db (buildIdMap ex1tags) = some (1, ex1Y) ∧
    ex1Y ≠ ex1X := by
  refine ⟨rfl, rfl, ?_⟩
  decide

/-- Claim C1 (amended): the Identity Resolver iterates the entry's
(service-id, external-id) pairs in ascending service-id order — the
identifier map is keyed and sorted by service id, a later duplicate tag
overwriting an earlier one — and returns the first pair for which the
library lookup succeeds; so when identifiers of several services match
different records, the service with the smallest id wins. -/
theorem claim1_amended (db : List Item) (tags : List (Nat × String)) :
    resolvePair db (buildIdMap tags) = resolveDocOrder db (buildIdMap tags) ∧
    ((buildIdMap tags).map Prod.fst).Pairwise (· < ·) :=
  ⟨resolve_eq_docOrder db (buildIdMap tags), buildIdMap_keys_sorted tags⟩

/-- The pruning pass only removes elements: its result is a sublist of the
input membership list. -/
theorem reviewPrune_sublist (db : List Item) (hide : Bool) (ds de : Date) :
    ∀ items : List Nat, (reviewPrune db hide ds de items).Sublist items := by
  intro items
  induction items with
  | nil => simp [reviewPrune]
  | cons a rest ih =>
    cases h : findById db a with
    | none =>
      simp only [reviewPrune, h]
      exact ih.cons₂ a
    | some it =>
      simp only [reviewPrune, h]
      split
      · exact ih.cons a
      · exact ih.cons₂ a

/-- The discovery pass only appends: membership in the accumulator is
preserved. -/
theorem mem_reviewDiscover (hide : Bool) (ds de : Date) :
    ∀ (db : List Item) (acc : List Nat) (a : Nat),
      a ∈ acc → a ∈ reviewDiscover hide ds de db acc := by
  intro db
  induction db with
  | nil => intro acc a h; simpa [reviewDiscover] using h
  | cons it rest ih =>
    intro acc a h
    simp only [reviewDiscover]
    apply ih
    split
    · exact h
    · split
      · exact h
      · exact List.mem_append_left _ h

/-- The discovery pass never introduces a duplicate: it appends an id only
after checking it is absent. -/
theorem reviewDiscover_nodup (hide : Bool) (ds de : Date) :
    ∀ (db : List Item) (acc : List Nat),
      acc.Nodup → (reviewDiscover hide ds de db acc).Nodup := by
  intro db
  induction db with
  | nil => intro acc h; simpa [reviewDiscover] using h
  | cons it rest ih =>
    intro acc h
    simp only [reviewDiscover]
    apply ih
    split
    · exact h
    · split
      · exact h
      · rename_i hc _
        simp only [List.nodup_append, List.nodup_cons, List.nodup_nil]
        refine ⟨h, by simp, ?_⟩
        intro a ha hb
        simp only [List.mem_singleton] at hb
        subst hb
        exact absurd ha (by simpa using hc)

/-- Claim C4 counterexample: a membership list that already contains a
duplicate (5 twice) whose record survives pruning (unknown start date, not
mature) keeps both copies through `Review`, so the list has duplicate
identifiers after the call. -/
theorem claim4_cex :
    (Review true ⟨2018, 1, 1⟩ ⟨2018, 3, 31⟩ ex4s).items = [5, 5] ∧
    ¬ (Review true ⟨2018, 1, 1⟩ ⟨2018, 3, 31⟩ ex4s).items.Nodup := by
  refine ⟨rfl, ?_⟩
  decide

/-- Claim C4 (amended): `Review` never introduces duplicate identifiers —
starting from a duplicate-free membership list, the list is duplicate-free
after any `Review` call, however many times a record qualifies; a duplicate
already present before the call whose record still qualifies is kept. -/
theorem claim4_nodup (hide : Bool) (ds de : Date) (s : SeasonState)
    (h : s.items.Nodup) : (Review hide ds de s).items.Nodup := by
  simp only [Review]
  exact reviewDiscover_nodup hide ds de s.db _
    (List.Nodup.sublist (reviewPrune_sublist s.db hide ds de s.items) h)

/-- Witness for claim C4 (amended) on a concrete duplicate-free list. -/
theorem claim4_witness :
    (Review true ⟨2018, 1, 1⟩ ⟨2018, 3, 31⟩ ex4sW).items.Nodup :=
  claim4_nodup true ⟨2018, 1, 1⟩ ⟨2018, 3, 31⟩ ex4sW (by decide)

/-- The pruning pass keeps every occurrence of an id whose record exists and
fails the removal condition. -/
theorem reviewPrune_keeps (db : List Item) (hide : Bool) (ds de : Date)
    (aid : Nat) (it : Item) (hf : findById db aid = some it)
    (hkeep : (isNsfwOn hide it || (IsValidDate it.dateStart && !isWithinInterval ds de it)) = false) :
    ∀ items : List Nat, aid ∈ items → aid ∈ reviewPrune db hide ds de items := by
  intro items
  induction items with
  | nil => intro h; cases h
  | cons a rest ih =>
    intro hmem
    by_cases ha : a = aid
    · subst ha
      simp only [reviewPrune, hf, hkeep]
      simp
    · have hmem2 : aid ∈ rest := by
        rcases List.mem_cons.mp hmem with h | h
        · exact absurd h.symm ha
        · exact h
      cases h : findById db a with
      | none =>
        simp only [reviewPrune, h]
        exact List.mem_cons_of_mem a (ih hmem2)
      | some it2 =>
        simp only [reviewPrune, h]
        split
        · exact ih hmem2
        · exact List.mem_cons_of_mem a (ih hmem2)

/-- The discovery pass adds (or finds already present) the id of any library
record that passes both checks. -/
theorem reviewDiscover_adds (hide : Bool) (ds de : Date) (it : Item)
    (hcond : (isNsfwOn hide it || !isWithinInterval ds de it) = false) :
    ∀ (db : List Item) (acc : List Nat),
      it ∈ db → it.aid ∈ reviewDiscover hide ds de db acc := by
  intro db
  induction db with
  | nil => intro acc h; cases h
  | cons it2 rest ih =>
    intro acc hmem
    rcases List.mem_cons.mp hmem with rfl | h
    · simp only [reviewDiscover]
      apply mem_reviewDiscover
      split
      · rename_i hc
        simpa using hc
      · split
        · rename_i hc2
          exact absurd hcond (by simp [hc2])
        · exact List.mem_append_right _ (by simp)
    · simp only [reviewDiscover]
      exact ih _ h

/-- The discovery pass never adds `aid` when every library record carrying it
fails one of the checks. -/
theorem reviewDiscover_not_added (hide : Bool) (ds de : Date) (aid : Nat) :
    ∀ (db : List Item) (acc : List Nat),
      aid ∉ acc →
      (∀ it2 ∈ db, it2.aid = aid → (isNsfwOn hide it2 || !isWithinInterval ds de it2) = true) →
      aid ∉ reviewDiscover hide ds de db acc := by
  intro db
  induction db with
  | nil => intro acc hacc _; simpa [reviewDiscover] using hacc
  | cons it2 rest ih =>
    intro acc hacc hall
    simp only [reviewDiscover]
    apply ih
    · split
      · exact hacc
      · split
        · exact hacc
        · rename_i hc2
          intro hmem
          rcases List.mem_append.mp hmem with h | h
          · exact hacc h
          · have h5 : it2.aid = aid := by
              have h6 : aid = it2.aid := by simpa using h
              exact h6.symm
            exact absurd (hall it2 (by simp) h5) (by simp [hc2])
    · intro it3 h3 h4
      exact hall it3 (List.mem_cons_of_mem it2 h3) h4

/-- Claim C5: a record with an invalid/unknown start date is never pruned by
the date check alone — if it is in the membership list and not excluded by
content policy it survives `Review` — and, if absent, the discovery pass
never adds it.  The library is assumed to have unique record identifiers, as
the C++ `std::map<int, Item>` guarantees. -/
theorem claim5_unknown_date (hide : Bool) (ds de : Date) (s : SeasonState)
    (aid : Nat) (it : Item)
    (hnd : (s.db.map Item.aid).Nodup)
    (hfind : findById s.db aid = some it)
    (hdate : IsValidDate it.dateStart = false) :
    (isNsfwOn hide it = false → aid ∈ s.items → aid ∈ (Review hide ds de s).items) ∧
    (aid ∉ s.items → aid ∉ (Review hide ds de s).items) := by
  have hmem : it ∈ s.db := List.mem_of_find?_eq_some hfind
  have haid : it.aid = aid := by simpa using List.find?_some hfind
  constructor
  · intro hns hin
    simp only [Review]
    apply mem_reviewDiscover
    apply reviewPrune_keeps s.db hide ds de aid it hfind
    · simp [hns, hdate]
    · exact hin
  · intro hout
    simp only [Review]
    apply reviewDiscover_not_added
    · intro hc
      exact hout (List.Sublist.subset (reviewPrune_sublist s.db hide ds de s.items) hc)
    · intro it2 h2 h4
      have : it2 = it := List.inj_on_of_nodup_map hnd h2 hmem (by rw [h4, haid])
      subst this
      have hy : it2.dateStart.year = 0 := by simpa [IsValidDate] using hdate
      simp [isWithinInterval, hy]

/-- Witness for claim C5: record 3 (unknown date, not mature) survives
`Review` when present and is not added when absent. -/
theorem claim5_witness :
    (3 ∈ (Review true ⟨2018, 1, 1⟩ ⟨2018, 3, 31⟩ ex5sIn).items) ∧
    (3 ∉ (Review true ⟨2018, 1, 1⟩ ⟨2018, 3, 31⟩ ex5sOut).items) :=
  ⟨(claim5_unknown_date true ⟨2018, 1, 1⟩ ⟨2018, 3, 31⟩ ex5sIn 3 ex5it
      (by decide) rfl rfl).1 rfl (by decide),
   (claim5_unknown_date true ⟨2018, 1, 1⟩ ⟨2018, 3, 31⟩ ex5sOut 3 ex5it
      (by decide) rfl rfl).2 (by decide)⟩

/-- Claim C6 counterexample: record 7's valid start date equals the
interval's end bound 2018-03-31.  The claim says the date falls outside the
interval, so `Review` should remove it when present and never add it when
absent; the code keeps it and adds it, because the source's comparison
`anime_start <= date_end` is inclusive. -/
theorem claim6_cex :
    (Review true ⟨2018, 1, 1⟩ ⟨2018, 3, 31⟩ ex6sIn).items = [7] ∧
    (Review true ⟨2018, 1, 1⟩ ⟨2018, 3, 31⟩ ex6sOut).items = [7] :=
  ⟨rfl, rfl⟩

/-- Claim C6 (amended): the season's date interval is closed, [start, end]:
a record with a valid start date exactly equal to the end bound lies inside
the interval, so (unless excluded by content policy) the pruning pass keeps
it and the discovery pass adds it when absent — in either case it is in the
membership list after `Review`. -/
theorem claim6_boundary (hide : Bool) (ds de : Date) (s : SeasonState)
    (aid : Nat) (it : Item)
    (hfind : findById s.db aid = some it)
    (hdate : it.dateStart = de)
    (hy : de.year ≠ 0) (hm : de.month ≠ 0)
    (hse : dateLe ds de = true)
    (hns : isNsfwOn hide it = false) :
    aid ∈ (Review hide ds de s).items := by
  have hmem : it ∈ s.db := List.mem_of_find?_eq_some hfind
  have haid : it.aid = aid := by simpa using List.find?_some hfind
  have hrefl : dateLe de de = true := by simp [dateLe]
  have hw : isWithinInterval ds de it = true := by
    simp [isWithinInterval, hdate, hy, hm, hse, hrefl]
  simp only [Review]
  rw [← haid]
  apply reviewDiscover_adds hide ds de it (by simp [hns, hw]) s.db _ hmem

/-- Witness for claim C6 (amended): record 7, dated exactly at the end
bound, is added by `Review` from an empty membership list. -/
theorem claim6_witness :
    7 ∈ (Review true ⟨2018, 1, 1⟩ ⟨2018, 3, 31⟩ ex6sOut).items :=
  claim6_boundary true ⟨2018, 1, 1⟩ ⟨2018, 3, 31⟩ ex6sOut 7 ex6it rfl rfl
    (by decide) (by decide) (by decide) rfl

/-- The qualifying count distributes over list concatenation. -/
theorem countQual_append (db : List Item) :
    ∀ xs ys : List Nat, countQual db (xs ++ ys) = countQual db xs + countQual db ys := by
  intro xs ys
  induction xs with
  | nil => simp [countQual]
  | cons a rest ih =>
    cases h : findById db a with
    | none =>
      simp only [List.cons_append, countQual, h]
      exact ih
    | some it =>
      simp only [List.cons_append, countQual, h]
      by_cases hq : (!IsValidDate it.dateStart || it.synopsis == "") = true
      · rw [if_pos hq, if_pos hq]
        have h2 : countQual db (rest ++ ys) = countQual db rest + countQual db ys := ih
        simp only [List.append_eq]
        omega
      · rw [if_neg hq, if_neg hq]
        exact ih

/-- The counting loop with early exit computes exactly "running total
exceeds 20", for any starting count that has not yet crossed the
threshold. -/
theorem irrGo_spec (db : List Item) :
    ∀ (items : List Nat) (count : Nat), count ≤ 20 →
      irrGo db count items = decide (20 < count + countQual db items) := by
  intro items
  induction items with
  | nil =>
    intro c hc
    simp only [irrGo, countQual]
    symm
    simp only [decide_eq_false_iff_not]
    omega
  | cons a rest ih =>
    intro c hc
    cases h : findById db a with
    | none =>
      simp only [irrGo, countQual, h]
      rw [if_neg (by omega)]
      exact ih c hc
    | some it =>
      simp only [irrGo, countQual, h]
      by_cases hq : (!IsValidDate it.dateStart || it.synopsis == "") = true
      · rw [if_pos hq, if_pos hq]
        by_cases h2 : 20 < c + 1
        · rw [if_pos h2]
          symm
          simp only [decide_eq_true_eq]
          omega
        · rw [if_neg h2, ih (c + 1) (by omega)]
          have h3 : c + 1 + countQual db rest = c + (countQual db rest + 1) := by omega
          rw [h3]
      · rw [if_neg hq, if_neg hq, if_neg (by omega)]
        exact ih c hc

/-- Claim C9: `IsRefreshRequired` returns true exactly when the number of
membership-list records with an invalid/unknown start date or an unset
synopsis exceeds 20, and it short-circuits: once a prefix of the list
crosses the threshold the result is true regardless of what follows. -/
theorem claim9_refresh (db : List Item) (items : List Nat) :
    IsRefreshRequired db items = decide (20 < countQual db items) ∧
    (∀ pre suf : List Nat, 20 < countQual db pre →
      IsRefreshRequired db (pre ++ suf) = true) := by
  constructor
  · have h := irrGo_spec db items 0 (by omega)
    simpa [IsRefreshRequired] using h
  · intro pre suf h
    have h2 := irrGo_spec db (pre ++ suf) 0 (by omega)
    simp only [IsRefreshRequired, h2, countQual_append]
    simp
    omega

/-- Witness for claim C9: 21 qualifying references make the heuristic fire,
whatever follows them. -/
theorem claim9_witness : IsRefreshRequired ex9db (ex9items ++ [99]) = true :=
  (claim9_refresh ex9db (ex9items ++ [99])).2 ex9items [99] (by decide)

/-- An indexed lookup that succeeds is within bounds. -/
theorem getElem_some_lt {α : Type} (l : List α) (j : Nat) (x : α)
    (h : l[j]? = some x) : j < l.length := by
  by_contra hc
  rw [List.getElem?_eq_none (by omega)] at h
  cases h

/-- `Evolves` is reflexive. -/
theorem evolves_refl (m : Int) (a : List Item) : Evolves m a a := by
  refine ⟨le_refl _, ?_, ?_⟩
  · intro j it h
    exact ⟨it, h, Or.inl rfl, fun _ => rfl⟩
  · intro j it2 hb hlen
    rw [List.getElem?_eq_none hlen] at hb
    cases hb

/-- `Evolves` is transitive. -/
theorem evolves_trans {m : Int} {a b c : List Item}
    (hab : Evolves m a b) (hbc : Evolves m b c) : Evolves m a c := by
  obtain ⟨hl1, h1, h1n⟩ := hab
  obtain ⟨hl2, h2, h2n⟩ := hbc
  refine ⟨le_trans hl1 hl2, ?_, ?_⟩
  · intro j it hj
    obtain ⟨it2, hb, hd, hf⟩ := h1 j it hj
    obtain ⟨it3, hc, hd2, hf2⟩ := h2 j it2 hb
    refine ⟨it3, hc, ?_, ?_⟩
    · rcases hd with rfl | hm2
      · exact hd2
      · rcases hd2 with rfl | hm3
        · exact Or.inr hm2
        · exact Or.inr hm3
    · intro hm
      rw [hf2 (by rw [hf hm]; exact hm), hf hm]
  · intro j it3 hc hlen
    by_cases hj : j < b.length
    · have hb : b[j]? = some b[j] := List.getElem?_eq_getElem hj
      have hm2 : (b[j]).lastModified = m := h1n j (b[j]) hb hlen
      obtain ⟨it4, hc2, _, hf2⟩ := h2 j (b[j]) hb
      rw [hc] at hc2
      injection hc2 with h5
      rw [h5, hf2 (le_of_eq hm2.symm)]
      exact hm2
    · exact h2n j it3 hc (by omega)

/-- A record whose stamp is already at least `m` persists unchanged. -/
theorem evolves_keep {m : Int} {a b : List Item} (h : Evolves m a b)
    {j : Nat} {it : Item} (hj : a[j]? = some it) (hm : m ≤ it.lastModified) :
    b[j]? = some it := by
  obtain ⟨it2, hb, _, hf⟩ := h.2.1 j it hj
  rw [hb, hf hm]

/-- A record seen after evolution with a stamp different from `m` was already
there, unchanged, before. -/
theorem evolves_back {m : Int} {a b : List Item} (h : Evolves m a b)
    {j : Nat} {it2 : Item} (hj : b[j]? = some it2) (hm : it2.lastModified ≠ m) :
    a[j]? = some it2 := by
  by_cases hl : j < a.length
  · have ha : a[j]? = some (a[j]) := List.getElem?_eq_getElem hl
    obtain ⟨it3, hb3, hd, _⟩ := h.2.1 j (a[j]) ha
    rw [hj] at hb3
    injection hb3 with h5
    rcases hd with h6 | h6
    · rw [← h5] at h6
      rw [ha, h6]
    · rw [← h5] at h6
      exact absurd h6 hm
  · exact absurd (h.2.2 j it2 hj (by omega)) hm

/-- Appending a record stamped `m` is an evolution step. -/
theorem evolves_append (m : Int) (a : List Item) (x : Item)
    (hx : x.lastModified = m) : Evolves m a (a ++ [x]) := by
  refine ⟨by simp, ?_, ?_⟩
  · intro j it hj
    have hl : j < a.length := getElem_some_lt a j it hj
    refine ⟨it, ?_, Or.inl rfl, fun _ => rfl⟩
    rw [List.getElem?_append, if_pos hl]
    exact hj
  · intro j it2 hb hlen
    rw [List.getElem?_append, if_neg (by omega)] at hb
    cases hd : j - a.length with
    | zero =>
      rw [hd] at hb
      simp only [List.getElem?_cons_zero] at hb
      injection hb with h5
      rw [← h5]
      exact hx
    | succ k =>
      rw [hd] at hb
      simp at hb

/-- Overwriting a stale record in place with one stamped `m` is an evolution
step. -/
theorem evolves_set (m : Int) (a : List Item) (j0 : Nat) (old x : Item)
    (hj : a[j0]? = some old) (hstale : old.lastModified < m)
    (hx : x.lastModified = m) : Evolves m a (a.set j0 x) := by
  have hl0 : j0 < a.length := getElem_some_lt a j0 old hj
  refine ⟨by simp, ?_, ?_⟩
  · intro j it hjit
    by_cases he : j = j0
    · subst he
      rw [hjit] at hj
      injection hj with h5
      refine ⟨x, ?_, Or.inr hx, ?_⟩
      · rw [List.getElem?_set, if_pos rfl, if_pos hl0]
      · intro hm
        rw [h5] at hm
        exact absurd hm (by omega)
    · refine ⟨it, ?_, Or.inl rfl, fun _ => rfl⟩
      rw [List.getElem?_set, if_neg (fun h => he h.symm)]
      exact hjit
  · intro j it2 hb hlen
    rw [List.getElem?_set] at hb
    by_cases he : j0 = j
    · rw [if_pos he, if_neg (by omega)] at hb
      cases hb
    · rw [if_neg he] at hb
      rw [List.getElem?_eq_none (by omega)] at hb
      cases hb

/-- What a successful `findPair` means: the record is at the returned
position, carries the id, and no earlier record carries it. -/
theorem findPair_some_facts (s : Nat) (e : String) :
    ∀ (db : List Item) (j : Nat) (it : Item), findPair s e db = some (j, it) →
      db[j]? = some it ∧ hasId it s e = true ∧
      ∀ (k : Nat) (it2 : Item), k < j → db[k]? = some it2 → hasId it2 s e = false := by
  intro db
  induction db with
  | nil => intro j it h; simp [findPair] at h
  | cons a rest ih =>
    intro j it h
    by_cases ha : hasId a s e = true
    · simp only [findPair, if_pos ha, Option.some.injEq, Prod.mk.injEq] at h
      obtain ⟨hj, hit⟩ := h
      subst hj
      subst hit
      refine ⟨by simp, ha, ?_⟩
      intro k it2 hk
      omega
    · simp only [findPair, if_neg ha] at h
      cases hr : findPair s e rest with
      | none =>
        rw [hr, Option.map_none'] at h
        cases h
      | some r =>
        obtain ⟨j1, it1⟩ := r
        rw [hr, Option.map_some'] at h
        simp only [Option.some.injEq, Prod.mk.injEq] at h
        obtain ⟨hj, hit⟩ := h
        subst hj
        subst hit
        obtain ⟨h1, h2, h3⟩ := ih j1 it1 hr
        refine ⟨by simpa using h1, h2, ?_⟩
        intro k it2 hk hke
        cases k with
        | zero =>
          simp only [List.getElem?_cons_zero, Option.some.injEq] at hke
          rw [← hke]
          exact Bool.eq_false_iff.mpr ha
        | succ k2 =>
          exact h3 k2 it2 (by omega) (by simpa using hke)

/-- If some record carries the id, `findPair` succeeds. -/
theorem findPair_isSome (s : Nat) (e : String) :
    ∀ (db : List Item) (j : Nat) (it : Item), db[j]? = some it →
      hasId it s e = true → ∃ r, findPair s e db = some r := by
  intro db
  induction db with
  | nil => intro j it h; simp at h
  | cons a rest ih =>
    intro j it hj hid
    by_cases ha : hasId a s e = true
    · exact ⟨(0, a), by simp [findPair, ha]⟩
    · cases j with
      | zero =>
        simp only [List.getElem?_cons_zero, Option.some.injEq] at hj
        rw [← hj] at hid
        exact absurd hid ha
      | succ j2 =>
        obtain ⟨r, hr⟩ := ih j2 it (by simpa using hj) hid
        exact ⟨(r.1 + 1, r.2), by simp [findPair, ha, hr]⟩

/-- A successful resolution returns a record at its returned position. -/
theorem resolvePair_getElem (db : List Item) :
    ∀ (L : List (Nat × String)) (j : Nat) (it : Item),
      resolvePair db L = some (j, it) → db[j]? = some it := by
  intro L
  induction L with
  | nil => intro j it h; simp [resolvePair] at h
  | cons p rest ih =>
    obtain ⟨s, e⟩ := p
    intro j it h
    cases hf : findPair s e db with
    | none =>
      simp only [resolvePair, hf] at h
      exact ih j it h
    | some r =>
      simp only [resolvePair, hf, Option.some.injEq] at h
      rw [h] at hf
      exact (findPair_some_facts s e db j it hf).1

/-- A failed resolution means the head pair's lookup failed. -/
theorem resolvePair_none_head (db : List Item) (s : Nat) (e : String)
    (rest : List (Nat × String))
    (h : resolvePair db ((s, e) :: rest) = none) : findPair s e db = none := by
  cases hf : findPair s e db with
  | none => rfl
  | some r =>
    simp only [resolvePair, hf] at h
    exact absurd h (Option.some_ne_none r)

/-- Each entry's processing is an evolution step: it leaves the database
alone, overwrites one stale record with stamp `m`, or appends one record
with stamp `m`. -/
theorem processEntry_evolves (active : Nat) (m : Int) (db : List Item)
    (items : List Nat) (e : SeasonEntry) :
    Evolves m db (processEntry active m db items e).1 := by
  cases h0 : resolvePair db (buildIdMap e.idTags) with
  | some r0 =>
    obtain ⟨j0, it0⟩ := r0
    by_cases hfr : m ≤ it0.lastModified
    · have h1 : (processEntry active m db items e).1 = db := by
        simp [processEntry, h0, hfr]
      rw [h1]
      exact evolves_refl m db
    · by_cases hact : (mapGet (buildIdMap e.idTags) active).getD "" = ""
      · have h1 : (processEntry active m db items e).1 = db := by
          simp [processEntry, processElse, h0, hfr, hact]
        rw [h1]
        exact evolves_refl m db
      · have h1 : (processEntry active m db items e).1
            = db.set j0 (mergeItem it0 (entryItem active m e (buildIdMap e.idTags))) := by
          simp [processEntry, processElse, h0, hfr, hact, updateItem, entryItem]
        rw [h1]
        exact evolves_set m db j0 it0 _ (resolvePair_getElem db _ j0 it0 h0)
          (by omega) rfl
  | none =>
    by_cases hact : (mapGet (buildIdMap e.idTags) active).getD "" = ""
    · have h1 : (processEntry active m db items e).1 = db := by
        simp [processEntry, processElse, h0, hact]
      rw [h1]
      exact evolves_refl m db
    · have h1 : (processEntry active m db items e).1
          = db ++ [{ entryItem active m e (buildIdMap e.idTags) with aid := freshId db }] := by
        simp [processEntry, processElse, h0, hact, updateItem, entryItem]
      rw [h1]
      exact evolves_append m db _ rfl

/-- The whole entry loop is an evolution of the starting database. -/
theorem procAll_evolves (active : Nat) (m : Int) :
    ∀ (es : List SeasonEntry) (db : List Item) (items : List Nat),
      Evolves m db (procAll active m es db items).1 := by
  intro es
  induction es with
  | nil => intro db items; exact evolves_refl m db
  | cons e rest ih =>
    intro db items
    simp only [procAll]
    exact evolves_trans (processEntry_evolves active m db items e)
      (ih (processEntry active m db items e).1 (processEntry active m db items e).2)

/-- Resolution transport: if a pair list resolves in `db0` to a record at
least as new as `m`, then after any evolution it still resolves, again to a
record at least as new as `m`. -/
theorem resolve_fresh_transport (m : Int) (db0 dbF : List Item)
    (hEv : Evolves m db0 dbF) :
    ∀ (L : List (Nat × String)) (j0 : Nat) (it0 : Item),
      resolvePair db0 L = some (j0, it0) → m ≤ it0.lastModified →
      ∃ (j2 : Nat) (it2 : Item),
        resolvePair dbF L = some (j2, it2) ∧ m ≤ it2.lastModified := by
  intro L
  induction L with
  | nil => intro j0 it0 h hfr; simp [resolvePair] at h
  | cons p rest ih =>
    obtain ⟨s, e⟩ := p
    intro j0 it0 hrp hfr
    cases hfp0 : findPair s e db0 with
    | some r0 =>
      have hr0 : r0 = (j0, it0) := by
        simp only [resolvePair, hfp0, Option.some.injEq] at hrp
        exact hrp
      subst hr0
      obtain ⟨hg0, hid0, hmin0⟩ := findPair_some_facts s e db0 j0 it0 hfp0
      have hgF : dbF[j0]? = some it0 := evolves_keep hEv hg0 hfr
      obtain ⟨r2, hr2⟩ := findPair_isSome s e dbF j0 it0 hgF hid0
      obtain ⟨j2, it2⟩ := r2
      obtain ⟨hg2, hid2, hmin2⟩ := findPair_some_facts s e dbF j2 it2 hr2
      refine ⟨j2, it2, by simp [resolvePair, hr2], ?_⟩
      by_contra hlt
      push_neg at hlt
      have hne : it2.lastModified ≠ m := by omega
      have hg2b : db0[j2]? = some it2 := evolves_back hEv hg2 hne
      rcases lt_trichotomy j2 j0 with hlt2 | heq | hgt2
      · have hf := hmin0 j2 it2 hlt2 hg2b
        rw [hid2] at hf
        exact absurd hf (by decide)
      · subst heq
        rw [hg0] at hg2b
        injection hg2b with h5
        rw [← h5] at hlt
        omega
      · have hf := hmin2 j0 it0 hgt2 hgF
        rw [hid0] at hf
        exact absurd hf (by decide)
    | none =>
      have hrp2 : resolvePair db0 rest = some (j0, it0) := by
        simpa [resolvePair, hfp0] using hrp
      obtain ⟨j2, it2, hres2, hfr2⟩ := ih j0 it0 hrp2 hfr
      cases hfpF : findPair s e dbF with
      | none => exact ⟨j2, it2, by simp [resolvePair, hfpF, hres2], hfr2⟩
      | some r2 =>
        obtain ⟨j3, it3⟩ := r2
        obtain ⟨hg3, hid3, hmin3⟩ := findPair_some_facts s e dbF j3 it3 hfpF
        refine ⟨j3, it3, by simp [resolvePair, hfpF], ?_⟩
        by_contra hlt
        push_neg at hlt
        have hne : it3.lastModified ≠ m := by omega
        have hg3b : db0[j3]? = some it3 := evolves_back hEv hg3 hne
        obtain ⟨r4, hr4⟩ := findPair_isSome s e db0 j3 it3 hg3b hid3
        rw [hfp0] at hr4
        exact Option.noConfusion hr4

/-- Head-pair freshness: if after an evolution step `db0 → db1 → dbF` some
record `X` stamped `m` sits in `dbF` carrying the pair (s0, e0), every record
seen in `db1` but not stamped `m` was already in `db0`, and every `db0`
holder of the pair sits at or after `X`, then the pair's lookup in `dbF`
yields a record at least as new as `m`. -/
theorem findPair_head_fresh (m : Int) (db0 db1 dbF : List Item)
    (hEv : Evolves m db1 dbF) (s0 : Nat) (e0 : String) (jX : Nat) (X : Item)
    (hXF : dbF[jX]? = some X) (hXid : hasId X s0 e0 = true)
    (hXm : X.lastModified = m)
    (hC : ∀ (k : Nat) (it2 : Item), db1[k]? = some it2 →
      it2.lastModified ≠ m → db0[k]? = some it2)
    (hB : ∀ (k : Nat) (it2 : Item), db0[k]? = some it2 →
      hasId it2 s0 e0 = true → jX ≤ k) :
    ∃ (j2 : Nat) (it2 : Item),
      findPair s0 e0 dbF = some (j2, it2) ∧ m ≤ it2.lastModified := by
  obtain ⟨r2, hr2⟩ := findPair_isSome s0 e0 dbF jX X hXF hXid
  obtain ⟨j2, it2⟩ := r2
  obtain ⟨hg2, hid2, hmin2⟩ := findPair_some_facts s0 e0 dbF j2 it2 hr2
  refine ⟨j2, it2, hr2, ?_⟩
  by_contra hlt
  push_neg at hlt
  have hne : it2.lastModified ≠ m := by omega
  have hg2b : db1[j2]? = some it2 := evolves_back hEv hg2 hne
  have hg2c : db0[j2]? = some it2 := hC j2 it2 hg2b hne
  have hjle : jX ≤ j2 := hB j2 it2 hg2c hid2
  have hjge : ¬ jX < j2 := by
    intro hlt2
    have hf := hmin2 jX X hlt2 hXF
    rw [hXid] at hf
    exact absurd hf (by decide)
  have hje : jX = j2 := by omega
  rw [← hje, hXF] at hg2
  injection hg2 with h5
  rw [← h5] at hne
  exact hne hXm

/-- Reprocessing one entry against any database evolved from its own pass-1
processing leaves that database unchanged: the entry either resolves to a
record stamped at least `m` (and is reused) or is skipped. -/
theorem processEntry_db_stable (active : Nat) (m : Int) (e : SeasonEntry)
    (db0 : List Item) (items0 : List Nat) (dbF : List Item) (itemsX : List Nat)
    (hEv : Evolves m (processEntry active m db0 items0 e).1 dbF) :
    (processEntry active m dbF itemsX e).1 = dbF := by
  by_cases hact : (mapGet (buildIdMap e.idTags) active).getD "" = ""
  · cases hF : resolvePair dbF (buildIdMap e.idTags) with
    | none => simp [processEntry, processElse, hF, hact]
    | some r =>
      obtain ⟨j, it⟩ := r
      by_cases hm : m ≤ it.lastModified
      · simp [processEntry, hF, hm]
      · simp [processEntry, processElse, hF, hm, hact]
  · have hG : ∃ (j2 : Nat) (it2 : Item),
        resolvePair dbF (buildIdMap e.idTags) = some (j2, it2) ∧
        m ≤ it2.lastModified := by
      cases h0 : resolvePair db0 (buildIdMap e.idTags) with
      | some r0 =>
        obtain ⟨j0, it0⟩ := r0
        by_cases hfr : m ≤ it0.lastModified
        · have h1 : (processEntry active m db0 items0 e).1 = db0 := by
            simp [processEntry, h0, hfr]
          rw [h1] at hEv
          exact resolve_fresh_transport m db0 dbF hEv _ j0 it0 h0 hfr
        · have h1 : (processEntry active m db0 items0 e).1
              = db0.set j0 (mergeItem it0 (entryItem active m e (buildIdMap e.idTags))) := by
            simp [processEntry, processElse, h0, hfr, hact, updateItem, entryItem]
          rw [h1] at hEv
          cases hM : buildIdMap e.idTags with
          | nil => rw [hM] at hact; simp [mapGet] at hact
          | cons p rest =>
            obtain ⟨s0, e0⟩ := p
            set mi := mergeItem it0 (entryItem active m e (buildIdMap e.idTags)) with hmi
            have hmid : hasId mi s0 e0 = true := by
              simp [hasId, hmi, mergeItem, entryItem, hM, mapGet]
            have hg0 : db0[j0]? = some it0 := resolvePair_getElem db0 _ j0 it0 h0
            have hl0 : j0 < db0.length := getElem_some_lt db0 j0 it0 hg0
            have hg1 : (db0.set j0 mi)[j0]? = some mi := by
              rw [List.getElem?_set, if_pos rfl, if_pos hl0]
            have hgF : dbF[j0]? = some mi :=
              evolves_keep hEv hg1
                (le_of_eq (show m = mi.lastModified by simp [hmi, mergeItem, entryItem]))
            have hC : ∀ (k : Nat) (it2 : Item), (db0.set j0 mi)[k]? = some it2 →
                it2.lastModified ≠ m → db0[k]? = some it2 := by
              intro k it2 hk hne
              rw [List.getElem?_set] at hk
              by_cases he : j0 = k
              · rw [if_pos he, if_pos (by omega)] at hk
                injection hk with h5
                rw [← h5] at hne
                exact absurd (by simp [hmi, mergeItem, entryItem]) hne
              · rw [if_neg he] at hk
                exact hk
            have hB : ∀ (k : Nat) (it2 : Item), db0[k]? = some it2 →
                hasId it2 s0 e0 = true → j0 ≤ k := by
              intro k it2 hk hid
              obtain ⟨r4, hr4⟩ := findPair_isSome s0 e0 db0 k it2 hk hid
              have hres : resolvePair db0 (buildIdMap e.idTags) = some r4 := by
                rw [hM]
                simp [resolvePair, hr4]
              rw [h0] at hres
              injection hres with h5
              rw [← h5] at hr4
              obtain ⟨hg4, hid4, hmin⟩ := findPair_some_facts s0 e0 db0 j0 it0 hr4
              by_contra hklt
              push_neg at hklt
              have hf := hmin k it2 hklt hk
              rw [hid] at hf
              exact absurd hf (by decide)
            obtain ⟨j2, it2, hfp2, hfr2⟩ :=
              findPair_head_fresh m db0 (db0.set j0 mi) dbF hEv s0 e0 j0 mi hgF hmid
                (by simp [hmi, mergeItem, entryItem]) hC hB
            refine ⟨j2, it2, ?_, hfr2⟩
            simp [resolvePair, hfp2]
      | none =>
        have h1 : (processEntry active m db0 items0 e).1
            = db0 ++ [{ entryItem active m e (buildIdMap e.idTags) with aid := freshId db0 }] := by
          simp [processEntry, processElse, h0, hact, updateItem, entryItem]
        rw [h1] at hEv
        cases hM : buildIdMap e.idTags with
        | nil => rw [hM] at hact; simp [mapGet] at hact
        | cons p rest =>
          obtain ⟨s0, e0⟩ := p
          set x := { entryItem active m e (buildIdMap e.idTags) with aid := freshId db0 } with hx
          have hxid : hasId x s0 e0 = true := by
            simp [hasId, hx, entryItem, hM, mapGet]
          have hg1 : (db0 ++ [x])[db0.length]? = some x := List.getElem?_concat_length db0 x
          have hgF : dbF[db0.length]? = some x :=
            evolves_keep hEv hg1 (le_of_eq (show m = x.lastModified by simp [hx, entryItem]))
          have hC : ∀ (k : Nat) (it2 : Item), (db0 ++ [x])[k]? = some it2 →
              it2.lastModified ≠ m → db0[k]? = some it2 := by
            intro k it2 hk hne
            rw [List.getElem?_append] at hk
            by_cases hkl : k < db0.length
            · rw [if_pos hkl] at hk
              exact hk
            · rw [if_neg hkl] at hk
              cases hd : k - db0.length with
              | zero =>
                rw [hd] at hk
                simp only [List.getElem?_cons_zero] at hk
                injection hk with h5
                rw [← h5] at hne
                exact absurd (by simp [hx, entryItem]) hne
              | succ k2 =>
                rw [hd] at hk
                simp at hk
          have hB : ∀ (k : Nat) (it2 : Item), db0[k]? = some it2 →
              hasId it2 s0 e0 = true → db0.length ≤ k := by
            intro k it2 hk hid
            obtain ⟨r4, hr4⟩ := findPair_isSome s0 e0 db0 k it2 hk hid
            have hnone : findPair s0 e0 db0 = none := by
              apply resolvePair_none_head db0 s0 e0 rest
              rw [← hM]
              exact h0
            rw [hnone] at hr4
            exact Option.noConfusion hr4
          obtain ⟨j2, it2, hfp2, hfr2⟩ :=
            findPair_head_fresh m db0 (db0 ++ [x]) dbF hEv s0 e0 db0.length x hgF hxid
              (by simp [hx, entryItem]) hC hB
          refine ⟨j2, it2, ?_, hfr2⟩
          simp [resolvePair, hfp2]
    obtain ⟨j2, it2, hres2, hfr2⟩ := hG
    simp [processEntry, hres2, hfr2]

/-- Replaying the whole entry loop on its own output database leaves that
database unchanged. -/
theorem procAll_stable (active : Nat) (m : Int) :
    ∀ (es : List SeasonEntry) (db0 : List Item) (items0 itemsX : List Nat),
      (procAll active m es (procAll active m es db0 items0).1 itemsX).1
        = (procAll active m es db0 items0).1 := by
  intro es
  induction es with
  | nil => intro db0 items0 itemsX; rfl
  | cons e rest ih =>
    intro db0 items0 itemsX
    simp only [procAll]
    have hstep : (processEntry active m
        (procAll active m rest (processEntry active m db0 items0 e).1
          (processEntry active m db0 items0 e).2).1 itemsX e).1
        = (procAll active m rest (processEntry active m db0 items0 e).1
          (processEntry active m db0 items0 e).2).1 :=
      processEntry_db_stable active m e db0 items0 _ itemsX
        (procAll_evolves active m rest (processEntry active m db0 items0 e).1
          (processEntry active m db0 items0 e).2)
    rw [hstep]
    exact ih (processEntry active m db0 items0 e).1
      (processEntry active m db0 items0 e).2
      (processEntry active m
        (procAll active m rest (processEntry active m db0 items0 e).1
          (processEntry active m db0 items0 e).2).1 itemsX e).2

/-- The database after a successful `LoadString` is the entry loop's fold
over the previous database. -/
theorem loadString_db (doc : SeasonDoc) (active : Nat) (s : SeasonState) :
    (LoadString (some doc) active s).2.db
      = (procAll active doc.modified doc.entries s.db []).1 := by
  simp only [LoadString]
  split <;> rfl

/-- The membership list after a successful `LoadString` is the entry loop's
fold over the previous database, started from the cleared list. -/
theorem loadString_items (doc : SeasonDoc) (active : Nat) (s : SeasonState) :
    (LoadString (some doc) active s).2.items
      = (procAll active doc.modified doc.entries s.db []).2 := by
  simp only [LoadString]
  split <;> rfl

/-- Claim C8 counterexample: loading `ex8doc` twice is not idempotent.  The
first load leaves membership [1, 2] (entry A1 reuses record 1, matched via
service 2; entry A2 creates record 2 for its service-1 id).  The second load
yields [2, 2]: A1 now resolves via its service-1 id to the record created by
A2 during the first load. -/
theorem claim8_cex :
    ex8s1.items = [1, 2] ∧ ex8s2.items = [2, 2] ∧ ex8s1.items ≠ ex8s2.items := by
  refine ⟨rfl, rfl, ?_⟩
  decide

/-- Claim C8 (amended): a second load of the same unchanged document leaves
every library record — in particular every last-modified timestamp —
unchanged (timestamp equality prevents every overwrite), and consequently
loading a third time reproduces the second load's membership list exactly;
but the membership list of the second load may differ from the first's,
because an entry can re-resolve to a record that the first load created
later in its pass. -/
theorem claim8_amended (doc : SeasonDoc) (active : Nat) (s : SeasonState) :
    ((LoadString (some doc) active ((LoadString (some doc) active s).2)).2.db
      = (LoadString (some doc) active s).2.db) ∧
    ((LoadString (some doc) active
        ((LoadString (some doc) active ((LoadString (some doc) active s).2)).2)).2.items
      = (LoadString (some doc) active ((LoadString (some doc) active s).2)).2.items) := by
  have hdb : (LoadString (some doc) active ((LoadString (some doc) active s).2)).2.db
      = (LoadString (some doc) active s).2.db := by
    rw [loadString_db, loadString_db]
    exact procAll_stable active doc.modified doc.entries s.db [] []
  refine ⟨hdb, ?_⟩
  rw [loadString_items, loadString_items, hdb]
